import Mathlib

/-!
Verification of the dp-map-renderer geometry and choropleth pipeline.

Coordinates and data values are embedded as rationals (the Go code uses
float64; every claim checked here is about the algebraic structure of the
computations, not about rounding of binary floating point).  Functions that
can panic in Go (out-of-range indexing, nil dereference) are embedded as
Option-valued functions where `none` models the panic.
-/

namespace MapRenderer

/-- A 2D coordinate pair, as used throughout go.geojson ([x, y]). -/
structure Point where
  x : ℚ
  y : ℚ
deriving DecidableEq

/-- models.ChoroplethBreak: a single colour break. -/
structure ChoroplethBreak where
  LowerBound : ℚ
  Colour : String
deriving DecidableEq

/-- Descending order on breaks (comparator of renderer.sortBreaks with asc=false). -/
def breakGe (a b : ChoroplethBreak) : Prop := b.LowerBound ≤ a.LowerBound

/-- Ascending order on breaks (comparator of renderer.sortBreaks with asc=true). -/
def breakLe (a b : ChoroplethBreak) : Prop := a.LowerBound ≤ b.LowerBound

instance : DecidableRel breakGe := fun a b => inferInstanceAs (Decidable (b.LowerBound ≤ a.LowerBound))

instance : DecidableRel breakLe := fun a b => inferInstanceAs (Decidable (a.LowerBound ≤ b.LowerBound))

instance : IsTotal ChoroplethBreak breakLe := ⟨fun a b => le_total a.LowerBound b.LowerBound⟩

instance : IsTrans ChoroplethBreak breakLe := ⟨fun _ _ _ h h2 => le_trans h h2⟩

instance : IsTotal ChoroplethBreak breakGe := ⟨fun a b => le_total b.LowerBound a.LowerBound⟩

instance : IsTrans ChoroplethBreak breakGe := ⟨fun _ _ _ h h2 => le_trans h2 h⟩

/-- renderer.getColour (svg.go): returns the colour of the first break whose
LowerBound does not exceed the value; if no break qualifies it indexes
breaks[len(breaks)-1], which panics (`none`) on an empty slice. -/
def getColour (value : ℚ) (breaks : List ChoroplethBreak) : Option String :=
  match breaks.find? (fun b => b.LowerBound ≤ value) with
  | some b => some b.Colour
  | none => breaks.getLast?.map ChoroplethBreak.Colour

/-- renderer.sortBreaks (svg.go): a copy of the breaks sorted by LowerBound,
ascending or descending.  (Go uses sort.Slice with a strict comparator;
insertion sort by the matching non-strict comparator sorts the same keys.) -/
def sortBreaks (breaks : List ChoroplethBreak) (asc : Bool) : List ChoroplethBreak :=
  if asc then List.insertionSort breakLe breaks else List.insertionSort breakGe breaks

/-- Concrete breaks used by witness theorems: sorted descending by LowerBound. -/
def demoBreaks : List ChoroplethBreak :=
  [⟨10, "high"⟩, ⟨5, "low"⟩]

/-- C1: for a non-empty break list sorted descending by LowerBound, getColour
returns: the colour of the first break whose LowerBound ≤ value, which is a
break of greatest LowerBound not exceeding the value; and when the value is
below all lower bounds, the colour of the last break, whose LowerBound is
minimal in the list.  (Repeated calls agree because getColour is a pure
function of its arguments.) -/
theorem getColour_first_match (value : ℚ) (breaks : List ChoroplethBreak)
    (hne : breaks ≠ []) (hs : List.Sorted breakGe breaks) :
    ∃ c, getColour value breaks = some c ∧
      ((∃ b, breaks.find? (fun b2 => b2.LowerBound ≤ value) = some b ∧
          b ∈ breaks ∧ b.LowerBound ≤ value ∧ c = b.Colour ∧
          ∀ b2 ∈ breaks, b2.LowerBound ≤ value → b2.LowerBound ≤ b.LowerBound) ∨
       ((∀ b ∈ breaks, value < b.LowerBound) ∧
          c = (breaks.getLast hne).Colour ∧
          ∀ b2 ∈ breaks, (breaks.getLast hne).LowerBound ≤ b2.LowerBound)) := by
  induction breaks with
  | nil => exact absurd rfl hne
  | cons b rest ih =>
    by_cases hb : b.LowerBound ≤ value
    · refine ⟨b.Colour, ?_, Or.inl ⟨b, ?_, List.mem_cons_self _ _, hb, rfl, ?_⟩⟩
      · simp [getColour, List.find?, hb]
      · simp [List.find?, hb]
      · intro b2 hb2 _
        rcases List.mem_cons.mp hb2 with h | h
        · exact le_of_eq (by rw [h])
        · exact List.rel_of_sorted_cons hs b2 h
    · have hfind : (b :: rest).find? (fun b2 => b2.LowerBound ≤ value) =
          rest.find? (fun b2 => b2.LowerBound ≤ value) := by
        simp [List.find?, hb]
      cases rest with
      | nil =>
        refine ⟨b.Colour, ?_, Or.inr ⟨?_, ?_, ?_⟩⟩
        · simp [getColour, List.find?, hb]
        · intro b2 hb2
          rcases List.mem_cons.mp hb2 with h | h
          · rw [h]; exact lt_of_not_le hb
          · simp at h
        · simp [List.getLast]
        · intro b2 hb2
          rcases List.mem_cons.mp hb2 with h | h
          · rw [h]; simp [List.getLast]
          · simp at h
      | cons b1 rest1 =>
        have hrne : b1 :: rest1 ≠ [] := List.cons_ne_nil _ _
        have hgc : getColour value (b :: b1 :: rest1) = getColour value (b1 :: rest1) := by
          unfold getColour
          rw [hfind]
          cases hf : (b1 :: rest1).find? (fun b2 => b2.LowerBound ≤ value) with
          | some b2 => rfl
          | none =>
            simp [List.getLast?_cons_cons]
        obtain ⟨c, hc, hcase⟩ := ih hrne (List.sorted_cons.mp hs).2
        refine ⟨c, by rw [hgc]; exact hc, ?_⟩
        rcases hcase with ⟨b2, hfind2, hmem, hle, hcol, hmax⟩ | ⟨hall, hcol, hmin⟩
        · refine Or.inl ⟨b2, by rw [hfind]; exact hfind2, List.mem_cons_of_mem _ hmem, hle, hcol, ?_⟩
          intro b3 hb3 hle3
          rcases List.mem_cons.mp hb3 with h | h
          · exact absurd (by rw [← h]; exact hle3) hb
          · exact hmax b3 h hle3
        · have hlast : (b :: b1 :: rest1).getLast hne = (b1 :: rest1).getLast hrne :=
            List.getLast_cons hrne
          refine Or.inr ⟨?_, ?_, ?_⟩
          · intro b3 hb3
            rcases List.mem_cons.mp hb3 with h | h
            · rw [h]; exact lt_of_not_le hb
            · exact hall b3 h
          · rw [hlast]; exact hcol
          · intro b3 hb3
            rcases List.mem_cons.mp hb3 with h | h
            · rw [h, hlast]
              exact (List.sorted_cons.mp hs).1 ((b1 :: rest1).getLast hrne) (List.getLast_mem hrne)
            · rw [hlast]; exact hmin b3 h

/-- Witness for C1 at a concrete input: value 7 against demoBreaks picks the
break with LowerBound 5. -/
theorem getColour_first_match_witness :
    demoBreaks ≠ [] ∧ List.Sorted breakGe demoBreaks ∧
      getColour 7 demoBreaks = some "low" := by
  have h1 : demoBreaks ≠ [] := by decide
  have h2 : List.Sorted breakGe demoBreaks := by
    constructor
    · intro b hb
      simp [demoBreaks] at hb
      rw [hb]
      show (5 : ℚ) ≤ 10
      norm_num
    · simp [List.Sorted]
  obtain ⟨c, hc, _⟩ := getColour_first_match 7 demoBreaks h1 h2
  have h3 : getColour 7 demoBreaks = some "low" := by decide
  exact ⟨h1, h2, h3⟩

/-- Minimum of a list of rationals (0 for the empty list; only ever used on
non-empty lists).  Used to state "smallest value" in the spec sentences. -/
def listMin : List ℚ → ℚ
  | [] => 0
  | [x] => x
  | x :: y :: xs => min x (listMin (y :: xs))

/-- Maximum of a list of rationals (0 for the empty list). -/
def listMax : List ℚ → ℚ
  | [] => 0
  | [x] => x
  | x :: y :: xs => max x (listMax (y :: xs))

theorem listMin_le (l : List ℚ) (x : ℚ) (hx : x ∈ l) : listMin l ≤ x := by
  induction l with
  | nil => simp at hx
  | cons a t ih =>
    cases t with
    | nil =>
      simp at hx
      rw [hx]
      simp [listMin]
    | cons b t2 =>
      rcases List.mem_cons.mp hx with h | h
      · rw [h]
        simp [listMin]
      · exact le_trans (by simp [listMin]) (ih h)

theorem listMin_mem (l : List ℚ) (h : l ≠ []) : listMin l ∈ l := by
  induction l with
  | nil => exact absurd rfl h
  | cons a t ih =>
    cases t with
    | nil => simp [listMin]
    | cons b t2 =>
      rcases le_total a (listMin (b :: t2)) with hle | hle
      · simp [listMin, min_eq_left hle]
      · have : listMin (a :: b :: t2) = listMin (b :: t2) := by
          simp [listMin, min_eq_right hle]
        rw [this]
        exact List.mem_cons_of_mem _ (ih (List.cons_ne_nil _ _))

theorem le_listMax (l : List ℚ) (x : ℚ) (hx : x ∈ l) : x ≤ listMax l := by
  induction l with
  | nil => simp at hx
  | cons a t ih =>
    cases t with
    | nil =>
      simp at hx
      rw [hx]
      simp [listMax]
    | cons b t2 =>
      rcases List.mem_cons.mp hx with h | h
      · rw [h]
        simp [listMax]
      · exact le_trans (ih h) (by simp [listMax])

theorem listMax_mem (l : List ℚ) (h : l ≠ []) : listMax l ∈ l := by
  induction l with
  | nil => exact absurd rfl h
  | cons a t ih =>
    cases t with
    | nil => simp [listMax]
    | cons b t2 =>
      rcases le_total (listMax (b :: t2)) a with hle | hle
      · simp [listMax, max_eq_left hle]
      · have : listMax (a :: b :: t2) = listMax (b :: t2) := by
          simp [listMax, max_eq_right hle]
        rw [this]
        exact List.mem_cons_of_mem _ (ih (List.cons_ne_nil _ _))

/-- In a list sorted ascending by the key f, every element's key is at most
the key of the last element. -/
theorem sorted_le_getLast {α : Type} (f : α → ℚ) (l : List α) (h : l ≠ [])
    (hs : List.Sorted (fun a b => f a ≤ f b) l) (x : α) (hx : x ∈ l) :
    f x ≤ f (l.getLast h) := by
  induction l with
  | nil => exact absurd rfl h
  | cons a t ih =>
    cases t with
    | nil =>
      simp at hx
      rw [hx]
      simp
    | cons b t2 =>
      have htne : b :: t2 ≠ [] := List.cons_ne_nil _ _
      rw [List.getLast_cons htne]
      rcases List.mem_cons.mp hx with h1 | h1
      · rw [h1]
        exact List.rel_of_sorted_cons hs _ (List.getLast_mem htne)
      · exact ih htne (List.sorted_cons.mp hs).2 h1

/-- The head of a sorted permutation of l carries the minimum key of l. -/
theorem sorted_head_eq_listMin {α : Type} (f : α → ℚ) (sl l : List α)
    (hperm : sl.Perm l) (hs : List.Sorted (fun a b => f a ≤ f b) sl)
    (d : α) (rest : List α) (h : sl = d :: rest) :
    f d = listMin (l.map f) := by
  subst h
  have hmemd : d ∈ l := hperm.mem_iff.mp (List.mem_cons_self _ _)
  have hlne : l.map f ≠ [] := by
    intro hc
    rw [List.map_eq_nil_iff] at hc
    rw [hc] at hmemd
    simp at hmemd
  apply le_antisymm
  · obtain ⟨a, ha, hfa⟩ := List.mem_map.mp (listMin_mem _ hlne)
    rcases List.mem_cons.mp (hperm.mem_iff.mpr ha) with h1 | h1
    · rw [← hfa, h1]
    · rw [← hfa]
      exact List.rel_of_sorted_cons hs a h1
  · exact listMin_le _ _ (List.mem_map_of_mem f hmemd)

/-- The last element of a sorted permutation of l carries the maximum key of l. -/
theorem sorted_getLast_eq_listMax {α : Type} (f : α → ℚ) (sl l : List α)
    (hperm : sl.Perm l) (hs : List.Sorted (fun a b => f a ≤ f b) sl)
    (hne : sl ≠ []) :
    f (sl.getLast hne) = listMax (l.map f) := by
  have hmeml : sl.getLast hne ∈ l := hperm.mem_iff.mp (List.getLast_mem hne)
  have hlne : l.map f ≠ [] := by
    intro hc
    rw [List.map_eq_nil_iff] at hc
    rw [hc] at hmeml
    simp at hmeml
  apply le_antisymm
  · exact le_listMax _ _ (List.mem_map_of_mem f hmeml)
  · obtain ⟨a, ha, hfa⟩ := List.mem_map.mp (listMax_mem _ hlne)
    rw [← hfa]
    exact sorted_le_getLast f sl hne hs a (hperm.mem_iff.mpr ha)

/-- models.DataRow. -/
structure DataRow where
  ID : String
  Value : ℚ
deriving DecidableEq

/-- models.Choropleth (the fields used by the renderer). -/
structure Choropleth where
  ReferenceValue : ℚ
  ReferenceValueText : String
  ValuePrefix : String
  ValueSuffix : String
  Breaks : List ChoroplethBreak
  UpperBound : ℚ
  HorizontalLegendPosition : String
  VerticalLegendPosition : String
deriving DecidableEq

/-- Ascending order on data rows by Value (the sort.Slice comparator inside
getSortedBreakInfo). -/
def dataLe (a b : DataRow) : Prop := a.Value ≤ b.Value

instance : DecidableRel dataLe := fun a b => inferInstanceAs (Decidable (a.Value ≤ b.Value))

instance : IsTotal DataRow dataLe := ⟨fun a b => le_total a.Value b.Value⟩

instance : IsTrans DataRow dataLe := ⟨fun _ _ _ h h2 => le_trans h h2⟩

/-- renderer.breakInfo: one legend segment. -/
structure BreakInfo where
  LowerBound : ℚ
  UpperBound : ℚ
  RelativeSize : ℚ
  Colour : String
deriving DecidableEq

/-- The loop `for i := 0; i < breakCount-1; i++` of getSortedBreakInfo: one
segment per adjacent pair of (ascending-sorted) breaks, RelativeSize still 0. -/
def midSegs : List ChoroplethBreak → List BreakInfo
  | b :: b2 :: rest => ⟨b.LowerBound, b2.LowerBound, 0, b.Colour⟩ :: midSegs (b2 :: rest)
  | _ => []

/-- renderer.getSortedBreakInfo (svg.go).  `none` marks the inputs on which
the Go code panics: empty data (data[0] out of range), empty breaks
(breaks[0] out of range), and exactly one break (the loop has not run, so
info[0] is a nil pointer when `info[0].LowerBound = minValue` executes). -/
def getSortedBreakInfo (data0 : List DataRow) (ch : Choropleth) :
    Option (List BreakInfo × ℚ) :=
  match List.insertionSort dataLe data0, sortBreaks ch.Breaks true with
  | d0 :: ds, b0 :: b1 :: bs =>
    let dlast := (d0 :: ds).getLast (List.cons_ne_nil _ _)
    let blast := (b0 :: b1 :: bs).getLast (List.cons_ne_nil _ _)
    let minValue := min d0.Value b0.LowerBound
    let maxValue := if ch.UpperBound < blast.LowerBound then dlast.Value else ch.UpperBound
    let totalRange := maxValue - minValue
    let mids :=
      match midSegs (b0 :: b1 :: bs) with
      | m :: ms => { m with LowerBound := minValue } :: ms
      | [] => []
    let info := mids ++ [⟨blast.LowerBound, maxValue, 0, blast.Colour⟩]
    some (info.map (fun b =>
        { b with RelativeSize := (b.UpperBound - b.LowerBound) / totalRange }),
      (ch.ReferenceValue - minValue) / totalRange)
  | _, _ => none

/-- The spec's minimum: min(smallest data value, smallest break lower bound). -/
def specMinValue (data : List DataRow) (ch : Choropleth) : ℚ :=
  min (listMin (data.map DataRow.Value)) (listMin (ch.Breaks.map ChoroplethBreak.LowerBound))

/-- The code's maximum: the configured upper bound, unless it is below the
largest break lower bound, in which case the largest data value. -/
def specMaxValue (data : List DataRow) (ch : Choropleth) : ℚ :=
  if ch.UpperBound < listMax (ch.Breaks.map ChoroplethBreak.LowerBound)
  then listMax (data.map DataRow.Value) else ch.UpperBound

/-- The claim's (spec sentence's) maximum: max(largest data value, configured
upper bound).  Kept separate so the divergence from the code can be exhibited. -/
def claimMaxValue (data : List DataRow) (ch : Choropleth) : ℚ :=
  max (listMax (data.map DataRow.Value)) ch.UpperBound

theorem midSegs_length (l : List ChoroplethBreak) :
    (midSegs l).length = l.length - 1 := by
  induction l with
  | nil => rfl
  | cons b t ih =>
    cases t with
    | nil => rfl
    | cons b2 t2 =>
      simp only [midSegs, List.length_cons] at *
      omega

theorem midSegs_chain (l : List ChoroplethBreak) (h : l ≠ []) (final : BreakInfo)
    (hfin : final.LowerBound = (l.getLast h).LowerBound) :
    List.Chain' (fun a b : BreakInfo => a.UpperBound = b.LowerBound)
      (midSegs l ++ [final]) := by
  induction l with
  | nil => exact absurd rfl h
  | cons b t ih =>
    cases t with
    | nil => simp [midSegs]
    | cons b2 t2 =>
      have htne : b2 :: t2 ≠ [] := List.cons_ne_nil _ _
      have hlast : (b :: b2 :: t2).getLast h = (b2 :: t2).getLast htne :=
        List.getLast_cons htne
      have hstep : midSegs (b :: b2 :: t2) =
          ⟨b.LowerBound, b2.LowerBound, 0, b.Colour⟩ :: midSegs (b2 :: t2) := rfl
      rw [hstep, List.cons_append]
      apply List.chain'_cons'.mpr
      refine ⟨?_, ih htne (by rw [hfin, hlast])⟩
      intro y hy
      cases t2 with
      | nil =>
        simp only [midSegs, List.nil_append, List.head?_cons, Option.mem_def,
          Option.some.injEq] at hy
        rw [← hy, hfin, hlast]
        simp [List.getLast]
      | cons b3 t3 =>
        simp only [midSegs, List.cons_append, List.head?_cons, Option.mem_def,
          Option.some.injEq] at hy
        rw [← hy]

/-- C2 (amended): with at least two breaks and non-empty data,
getSortedBreakInfo partitions the legend into chained segments from the
minimum value to the maximum value, each segment's RelativeSize being
(upperBound - lowerBound) / totalRange with totalRange = maxValue - minValue,
minValue = min(smallest data value, smallest break lower bound) and
maxValue = the configured upper bound unless it is below the largest break
lower bound, in which case the largest data value; the reference tick sits at
(ReferenceValue - minValue) / totalRange. -/
theorem getSortedBreakInfo_spec (data : List DataRow) (ch : Choropleth)
    (hd : data ≠ []) (hb : 2 ≤ ch.Breaks.length) :
    ∃ info refPos, getSortedBreakInfo data ch = some (info, refPos) ∧
      (∀ seg ∈ info, seg.RelativeSize =
        (seg.UpperBound - seg.LowerBound) / (specMaxValue data ch - specMinValue data ch)) ∧
      refPos = (ch.ReferenceValue - specMinValue data ch) /
        (specMaxValue data ch - specMinValue data ch) ∧
      info.head?.map BreakInfo.LowerBound = some (specMinValue data ch) ∧
      info.getLast?.map BreakInfo.UpperBound = some (specMaxValue data ch) ∧
      info.length = ch.Breaks.length ∧
      List.Chain' (fun a b => a.UpperBound = b.LowerBound) info := by
  have hsb0 : sortBreaks ch.Breaks true = List.insertionSort breakLe ch.Breaks := by
    simp [sortBreaks]
  have hpd := List.perm_insertionSort dataLe data
  have hsd_s := List.sorted_insertionSort dataLe data
  have hlen_d : (List.insertionSort dataLe data).length = data.length := hpd.length_eq
  have hpb := List.perm_insertionSort breakLe ch.Breaks
  have hsb_s := List.sorted_insertionSort breakLe ch.Breaks
  have hlen_b : (List.insertionSort breakLe ch.Breaks).length = ch.Breaks.length :=
    hpb.length_eq
  cases hsd : List.insertionSort dataLe data with
  | nil =>
    rw [hsd] at hlen_d
    exact absurd (List.length_eq_zero.mp hlen_d.symm) hd
  | cons d0 ds =>
  cases hsb : List.insertionSort breakLe ch.Breaks with
  | nil =>
    rw [hsb] at hlen_b
    simp at hlen_b
    omega
  | cons b0 tb =>
  cases tb with
  | nil =>
    rw [hsb] at hlen_b
    simp at hlen_b
    omega
  | cons b1 bs =>
  rw [hsd] at hpd hsd_s
  rw [hsb] at hpb hsb_s
  have hd0 : d0.Value = listMin (data.map DataRow.Value) :=
    sorted_head_eq_listMin DataRow.Value (d0 :: ds) data hpd hsd_s d0 ds rfl
  have hdlast : ((d0 :: ds).getLast (List.cons_ne_nil _ _)).Value
      = listMax (data.map DataRow.Value) :=
    sorted_getLast_eq_listMax DataRow.Value (d0 :: ds) data hpd hsd_s _
  have hb0 : b0.LowerBound = listMin (ch.Breaks.map ChoroplethBreak.LowerBound) :=
    sorted_head_eq_listMin ChoroplethBreak.LowerBound (b0 :: b1 :: bs) ch.Breaks hpb hsb_s
      b0 (b1 :: bs) rfl
  have hblast : ((b0 :: b1 :: bs).getLast (List.cons_ne_nil _ _)).LowerBound
      = listMax (ch.Breaks.map ChoroplethBreak.LowerBound) :=
    sorted_getLast_eq_listMax ChoroplethBreak.LowerBound (b0 :: b1 :: bs) ch.Breaks hpb hsb_s _
  have hmin : min d0.Value b0.LowerBound = specMinValue data ch := by
    rw [hd0, hb0]
    rfl
  have hmax : (if ch.UpperBound < ((b0 :: b1 :: bs).getLast (List.cons_ne_nil _ _)).LowerBound
        then ((d0 :: ds).getLast (List.cons_ne_nil _ _)).Value else ch.UpperBound)
      = specMaxValue data ch := by
    rw [hdlast, hblast]
    rfl
  simp only [getSortedBreakInfo, hsb0, hsd, hsb]
  simp only [midSegs]
  refine ⟨_, _, rfl, ?_, ?_, ?_, ?_, ?_, ?_⟩
  · intro seg hseg
    obtain ⟨orig, horig, hsegeq⟩ := List.mem_map.mp hseg
    rw [← hsegeq]
    simp only []
    rw [hmin, hmax]
  · rw [hmin, hmax]
  · rw [← hmin]
    simp
  · rw [List.map_append]
    simp only [List.map_cons, List.map_nil, List.getLast?_concat, Option.map_some]
    rw [hmin, hmax]
    simp
  · rw [List.length_map, List.length_append]
    have := midSegs_length (b1 :: bs)
    simp only [List.length_cons, List.length_nil] at *
    rw [hsb] at hlen_b
    simp only [List.length_cons] at hlen_b
    omega
  · rw [List.chain'_map]
    have hchain := midSegs_chain (b0 :: b1 :: bs) (List.cons_ne_nil _ _)
      ⟨((b0 :: b1 :: bs).getLast (List.cons_ne_nil _ _)).LowerBound,
        (if ch.UpperBound < ((b0 :: b1 :: bs).getLast (List.cons_ne_nil _ _)).LowerBound
          then ((d0 :: ds).getLast (List.cons_ne_nil _ _)).Value else ch.UpperBound),
        0,
        ((b0 :: b1 :: bs).getLast (List.cons_ne_nil _ _)).Colour⟩ rfl
    have hstep : midSegs (b0 :: b1 :: bs) =
        ⟨b0.LowerBound, b1.LowerBound, 0, b0.Colour⟩ :: midSegs (b1 :: bs) := rfl
    rw [hstep, List.cons_append] at hchain
    obtain ⟨hhead, htail⟩ := List.chain'_cons'.mp hchain
    exact List.chain'_cons'.mpr ⟨hhead, htail⟩

/-- Concrete data for C2: a single row far above the configured upper bound. -/
def demoData : List DataRow := [⟨"a", 100⟩]

/-- Concrete choropleth for C2: breaks at 0 and 5, configured upper bound 10. -/
def demoChoropleth : Choropleth :=
  ⟨0, "", "", "", [⟨0, "red"⟩, ⟨5, "blue"⟩], 10, "", ""⟩

/-- Counterexample to C2 as stated: the claim takes
maxValue = max(largest data value, configured upper bound) = max(100, 10) = 100,
but the code keeps UpperBound = 10 because 10 is not below the largest break
lower bound 5; the produced segment sizes use totalRange 10, not 100. -/
theorem getSortedBreakInfo_claim_counterexample :
    ∃ info refPos, getSortedBreakInfo demoData demoChoropleth = some (info, refPos) ∧
      ∃ seg ∈ info, seg.RelativeSize ≠
        (seg.UpperBound - seg.LowerBound) /
          (claimMaxValue demoData demoChoropleth - specMinValue demoData demoChoropleth) := by
  refine ⟨[⟨0, 5, 1/2, "red"⟩, ⟨5, 10, 1/2, "blue"⟩], 0, ?_, ⟨5, 10, 1/2, "blue"⟩, ?_, ?_⟩
  · norm_num [getSortedBreakInfo, demoData, demoChoropleth, sortBreaks,
      List.insertionSort, List.orderedInsert, midSegs, breakLe, dataLe, List.getLast]
  · simp
  · norm_num [claimMaxValue, specMinValue, demoData, demoChoropleth, listMin, listMax]

/-- Witness for C2 (amended) at the concrete demo input. -/
theorem getSortedBreakInfo_spec_witness :
    demoData ≠ [] ∧ 2 ≤ demoChoropleth.Breaks.length ∧
      ∃ info refPos, getSortedBreakInfo demoData demoChoropleth = some (info, refPos) := by
  refine ⟨by decide, by decide, ?_⟩
  obtain ⟨info, refPos, heq, _⟩ :=
    getSortedBreakInfo_spec demoData demoChoropleth (by decide) (by decide)
  exact ⟨info, refPos, heq⟩

/-- Properties attached to a geometry or feature: opaque key-value pairs. -/
abbrev Props := List (String × String)

/-- topojson.Geometry: the tagged variant held in a topology's Objects.  The
Go struct carries a Type tag plus the field selected by the tag; here each
variant carries its own ID and Properties. -/
inductive TopoGeometry where
  | point (id : String) (props : Props) (p : Point)
  | multiPoint (id : String) (props : Props) (ps : List Point)
  | lineString (id : String) (props : Props) (arcs : List Int)
  | multiLineString (id : String) (props : Props) (arcs : List (List Int))
  | polygon (id : String) (props : Props) (rings : List (List Int))
  | multiPolygon (id : String) (props : Props) (polys : List (List (List Int)))
  | collection (id : String) (props : Props) (gs : List TopoGeometry)

def TopoGeometry.ID : TopoGeometry → String
  | .point i _ _ => i
  | .multiPoint i _ _ => i
  | .lineString i _ _ => i
  | .multiLineString i _ _ => i
  | .polygon i _ _ => i
  | .multiPolygon i _ _ => i
  | .collection i _ _ => i

def TopoGeometry.Properties : TopoGeometry → Props
  | .point _ pr _ => pr
  | .multiPoint _ pr _ => pr
  | .lineString _ pr _ => pr
  | .multiLineString _ pr _ => pr
  | .polygon _ pr _ => pr
  | .multiPolygon _ pr _ => pr
  | .collection _ pr _ => pr

/-- topojson.Transform: {Scale: [sx, sy], Translate: [tx, ty]}. -/
structure Transform where
  Scale : ℚ × ℚ
  Translate : ℚ × ℚ
deriving DecidableEq

/-- topojson.Topology (the fields the decoder reads).  Objects is a Go map;
it is embedded as an association list in a fixed iteration order. -/
structure Topology where
  Arcs : List (List Point)
  Transform : Option Transform
  Objects : List (String × TopoGeometry)

/-- Decoded (geojson) geometry. -/
inductive GeoGeometry where
  | point (p : Point)
  | multiPoint (ps : List Point)
  | lineString (ps : List Point)
  | multiLineString (ls : List (List Point))
  | polygon (rings : List (List Point))
  | multiPolygon (polys : List (List (List Point)))
  | collection (gs : List GeoGeometry)

/-- The affine map v*scale + translate applied to the two coordinates. -/
def affinePoint (tr : Transform) (p : Point) : Point :=
  ⟨p.x * tr.Scale.1 + tr.Translate.1, p.y * tr.Scale.2 + tr.Translate.2⟩

/-- topojson geojson.go packPoint: the affine map is applied to the first two
coordinates exactly when the topology carries a transform. -/
def packPoint (t : Topology) (p : Point) : Point :=
  match t.Transform with
  | none => p
  | some tr => affinePoint tr p

def packPoints (t : Topology) (ps : List Point) : List Point :=
  ps.map (packPoint t)

/-- The `if t.Transform != nil` loop of packLinestring: cumulative sums of
the deltas (in forward arc order), each sum pushed through the affine map. -/
def decodeArcGo (tr : Transform) (x y : ℚ) : List Point → List Point
  | [] => []
  | p :: rest =>
    ⟨(x + p.x) * tr.Scale.1 + tr.Translate.1, (y + p.y) * tr.Scale.2 + tr.Translate.2⟩ ::
      decodeArcGo tr (x + p.x) (y + p.y) rest

/-- Cumulative (prefix) sums of a delta-encoded arc, without the affine map.
Used to state the delta-decoding contract. -/
def cumSumGo (x y : ℚ) : List Point → List Point
  | [] => []
  | p :: rest => ⟨x + p.x, y + p.y⟩ :: cumSumGo (x + p.x) (y + p.y) rest

/-- Resolution of one signed arc index inside packLinestring: a negative
index a stands for arc ^a = -a-1 read in reverse; `none` models the
out-of-range indexing panic. -/
def arcPoints (t : Topology) (a : Int) : Option (List Point) :=
  let i : Int := if a < 0 then -a - 1 else a
  match t.Arcs.get? i.toNat with
  | none => none
  | some arc =>
    let newArc :=
      match t.Transform with
      | some tr => decodeArcGo tr 0 0 arc
      | none => arc
    some (if a < 0 then newArc.reverse else newArc)


/-- Option-valued map over a list, stopping at the first failure: the shape
of every Go loop that can panic part-way through. -/
def mapMOpt (f : α → Option β) : List α → Option (List β)
  | [] => some []
  | x :: rest =>
    match f x, mapMOpt f rest with
    | some y, some ys => some (y :: ys)
    | _, _ => none

/-- topojson geojson.go packLinestring: concatenation of the resolved arcs. -/
def packLinestring (t : Topology) (ls : List Int) : Option (List Point) :=
  (mapMOpt (arcPoints t) ls).map List.flatten

def packMultiLinestring (t : Topology) (ls : List (List Int)) :
    Option (List (List Point)) :=
  mapMOpt (packLinestring t) ls

mutual

/-- topojson geojson.go toGeometry: decodes one topology object. -/
def toGeometry (t : Topology) : TopoGeometry → Option GeoGeometry
  | .point _ _ p => some (.point (packPoint t p))
  | .multiPoint _ _ ps => some (.multiPoint (packPoints t ps))
  | .lineString _ _ arcs => (packLinestring t arcs).map .lineString
  | .multiLineString _ _ arcs => (packMultiLinestring t arcs).map .multiLineString
  | .polygon _ _ rings => (packMultiLinestring t rings).map .polygon
  | .multiPolygon _ _ polys =>
    (mapMOpt (packMultiLinestring t) polys).map .multiPolygon
  | .collection _ _ gs => (toGeometryList t gs).map .collection

/-- The loop over the members of a nested GeometryCollection. -/
def toGeometryList (t : Topology) : List TopoGeometry → Option (List GeoGeometry)
  | [] => some []
  | g :: rest =>
    match toGeometry t g, toGeometryList t rest with
    | some a, some as2 => some (a :: as2)
    | _, _ => none

end

/-- A decoded geojson feature. -/
structure Feature where
  ID : String
  Properties : Props
  geometry : GeoGeometry

abbrev FeatureCollection := List Feature

/-- topojson geojson.go ToGeoJSON, written as the source's append-accumulator
loop over the objects: a top-level GeometryCollection contributes one feature
per child geometry (with the child's ID and Properties); every other object
contributes one feature (with its own ID and Properties). -/
def toGeoJSONLoop (t : Topology) :
    List (String × TopoGeometry) → List Feature → Option (List Feature)
  | [], acc => some acc
  | (_, obj) :: rest, acc =>
    match obj with
    | .collection _ _ gs =>
      match mapMOpt (fun g =>
          (toGeometry t g).map (fun geo => Feature.mk g.ID g.Properties geo)) gs with
      | none => none
      | some feats => toGeoJSONLoop t rest (acc ++ feats)
    | _ =>
      match toGeometry t obj with
      | none => none
      | some geo => toGeoJSONLoop t rest (acc ++ [Feature.mk obj.ID obj.Properties geo])

def ToGeoJSON (t : Topology) : Option (List Feature) :=
  toGeoJSONLoop t t.Objects []

/-- The features contributed by one named object, stated the way the spec
describes it: flattened siblings for a collection, a single feature otherwise. -/
def specObjectFeatures (t : Topology) (obj : TopoGeometry) : Option (List Feature) :=
  match obj with
  | .collection _ _ gs =>
    mapMOpt (fun g => (toGeometry t g).map (fun geo => Feature.mk g.ID g.Properties geo)) gs
  | _ => (toGeometry t obj).map (fun geo => [Feature.mk obj.ID obj.Properties geo])

/-- ToGeoJSON as the spec words it: concatenate each object's flattened
features in object order. -/
def specToGeoJSON (t : Topology) : Option (List Feature) :=
  (mapMOpt (fun o => specObjectFeatures t o.2) t.Objects).map List.flatten

theorem toGeoJSONLoop_cons (t : Topology) (name : String) (obj : TopoGeometry)
    (rest : List (String × TopoGeometry)) (acc : List Feature) :
    toGeoJSONLoop t ((name, obj) :: rest) acc =
      match specObjectFeatures t obj with
      | none => none
      | some feats => toGeoJSONLoop t rest (acc ++ feats) := by
  cases obj with
  | collection i pr gs => rfl
  | point i pr p =>
    simp only [toGeoJSONLoop, specObjectFeatures]
    cases hg : toGeometry t (TopoGeometry.point i pr p) with
    | none => rfl
    | some geo => rfl
  | multiPoint i pr ps =>
    simp only [toGeoJSONLoop, specObjectFeatures]
    cases hg : toGeometry t (TopoGeometry.multiPoint i pr ps) with
    | none => rfl
    | some geo => rfl
  | lineString i pr arcs =>
    simp only [toGeoJSONLoop, specObjectFeatures]
    cases hg : toGeometry t (TopoGeometry.lineString i pr arcs) with
    | none => rfl
    | some geo => rfl
  | multiLineString i pr arcs =>
    simp only [toGeoJSONLoop, specObjectFeatures]
    cases hg : toGeometry t (TopoGeometry.multiLineString i pr arcs) with
    | none => rfl
    | some geo => rfl
  | polygon i pr rings =>
    simp only [toGeoJSONLoop, specObjectFeatures]
    cases hg : toGeometry t (TopoGeometry.polygon i pr rings) with
    | none => rfl
    | some geo => rfl
  | multiPolygon i pr polys =>
    simp only [toGeoJSONLoop, specObjectFeatures]
    cases hg : toGeometry t (TopoGeometry.multiPolygon i pr polys) with
    | none => rfl
    | some geo => rfl

theorem toGeoJSONLoop_spec (t : Topology) (objs : List (String × TopoGeometry)) :
    ∀ acc : List Feature,
      toGeoJSONLoop t objs acc =
        (mapMOpt (fun o => specObjectFeatures t o.2) objs).map
          (fun ls => acc ++ ls.flatten) := by
  induction objs with
  | nil =>
    intro acc
    simp [toGeoJSONLoop, mapMOpt]
  | cons o rest ih =>
    intro acc
    obtain ⟨name, obj⟩ := o
    rw [toGeoJSONLoop_cons]
    cases hobj : specObjectFeatures t obj with
    | none => simp [mapMOpt, hobj]
    | some feats =>
      show toGeoJSONLoop t rest (acc ++ feats) =
        Option.map (fun ls => acc ++ ls.flatten)
          (mapMOpt (fun o => specObjectFeatures t o.2) ((name, obj) :: rest))
      rw [ih]
      cases h2 : mapMOpt (fun o => specObjectFeatures t o.2) rest with
      | none => simp [mapMOpt, hobj, h2]
      | some ls2 => simp [mapMOpt, hobj, h2, List.append_assoc]

/-- C8: ToGeoJSON produces, object by object, one feature per child geometry
of a top-level GeometryCollection (each carrying the child's own ID and
Properties, inheriting nothing from the parent) and exactly one feature for
every non-collection object. -/
theorem ToGeoJSON_flattens_collections (t : Topology) :
    ToGeoJSON t = specToGeoJSON t := by
  unfold ToGeoJSON specToGeoJSON
  rw [toGeoJSONLoop_spec]
  cases h : mapMOpt (fun o => specObjectFeatures t o.2) t.Objects with
  | none => rfl
  | some ls => simp

/-- C4: resolving the bitwise-complement encoded negative index -j-1 (Go ^j)
yields exactly the reverse of resolving the forward index j, whether or not a
transform (delta decoding in forward arc order) is present; the same holds
for a packLinestring call on the single index. -/
theorem arcPoints_neg_reverse (t : Topology) (j : ℕ) :
    arcPoints t (-(j : ℤ) - 1) = (arcPoints t (j : ℤ)).map List.reverse ∧
    packLinestring t [-(j : ℤ) - 1] = (packLinestring t [(j : ℤ)]).map List.reverse := by
  have harc : arcPoints t (-(j : ℤ) - 1) = (arcPoints t (j : ℤ)).map List.reverse := by
    unfold arcPoints
    have h1 : (-(j : ℤ) - 1 < 0) := by omega
    have h2 : ¬((j : ℤ) < 0) := by omega
    have h3 : (-(-(j : ℤ) - 1) - 1) = (j : ℤ) := by ring
    simp only [if_pos h1, if_neg h2, h3]
    cases t.Arcs.get? (j : ℤ).toNat with
    | none => rfl
    | some arc =>
      cases t.Transform with
      | none => rfl
      | some tr => rfl
  refine ⟨harc, ?_⟩
  unfold packLinestring
  simp only [mapMOpt, harc]
  cases arcPoints t (j : ℤ) with
  | none => rfl
  | some ps => simp

theorem decodeArcGo_eq_cumSum_affine (tr : Transform) (x y : ℚ) (l : List Point) :
    decodeArcGo tr x y l = (cumSumGo x y l).map (affinePoint tr) := by
  induction l generalizing x y with
  | nil => rfl
  | cons p rest ih =>
    simp only [decodeArcGo, cumSumGo, List.map_cons, affinePoint]
    rw [ih]

/-- C5: decoding applies cumulative delta summation followed by the affine
map exactly when the topology carries a transform; with no transform the
arc's coordinate pairs are returned unchanged, and packPoint likewise applies
the affine map only when a transform is present. -/
theorem decode_transform_iff (t : Topology) (j : ℕ) (p : Point) :
    (t.Transform = none →
      arcPoints t (j : ℤ) = t.Arcs.get? j ∧ packPoint t p = p) ∧
    (∀ tr, t.Transform = some tr →
      arcPoints t (j : ℤ) =
        (t.Arcs.get? j).map (fun arc => (cumSumGo 0 0 arc).map (affinePoint tr)) ∧
      packPoint t p = affinePoint tr p) := by
  have h2 : ¬((j : ℤ) < 0) := by omega
  have htn : ((j : ℤ)).toNat = j := Int.toNat_ofNat j
  constructor
  · intro hnone
    constructor
    · unfold arcPoints
      simp only [if_neg h2, hnone, htn]
      cases t.Arcs.get? j with
      | none => rfl
      | some arc => rfl
    · unfold packPoint
      rw [hnone]
  · intro tr hsome
    constructor
    · unfold arcPoints
      simp only [if_neg h2, hsome, htn]
      cases t.Arcs.get? j with
      | none => rfl
      | some arc => simp [decodeArcGo_eq_cumSum_affine]
    · unfold packPoint
      rw [hsome]

/-- A concrete transform for the C5 witness. -/
def demoTransform : Transform := ⟨(2, 3), (10, 20)⟩

/-- A one-arc topology with a transform (arc holds the deltas (1,1),(2,0)). -/
def demoTopo : Topology := ⟨[[⟨1, 1⟩, ⟨2, 0⟩]], some demoTransform, []⟩

/-- The same arc with no transform. -/
def demoTopoNoTransform : Topology := ⟨[[⟨1, 1⟩, ⟨2, 0⟩]], none, []⟩

/-- Witness for C5: without a transform the arc is returned unchanged; with
the transform the deltas are summed ((1,1),(3,1)) and mapped affinely. -/
theorem decode_transform_iff_witness :
    arcPoints demoTopoNoTransform 0 = some [⟨1, 1⟩, ⟨2, 0⟩] ∧
    arcPoints demoTopo 0 = some [⟨12, 23⟩, ⟨16, 23⟩] := by
  constructor
  · have h := ((decode_transform_iff demoTopoNoTransform 0 ⟨0, 0⟩).1 rfl).1
    rw [show ((0 : ℕ) : ℤ) = 0 from rfl] at h
    rw [h]
    rfl
  · have h := ((decode_transform_iff demoTopo 0 ⟨0, 0⟩).2 demoTransform rfl).1
    rw [show ((0 : ℕ) : ℤ) = 0 from rfl] at h
    rw [h]
    show some (List.map (affinePoint demoTransform) (cumSumGo 0 0 [⟨1, 1⟩, ⟨2, 0⟩]))
      = some [⟨12, 23⟩, ⟨16, 23⟩]
    norm_num [cumSumGo, affinePoint, demoTransform, Point.mk.injEq]

/-- Floor of a rational, as a rational (math.Floor). -/
def ratFloor (v : ℚ) : ℚ := (Rat.floor v : ℚ)

/-- Ceiling of a rational, as a rational (math.Ceil). -/
def ratCeil (v : ℚ) : ℚ := -(ratFloor (-v))

/-- topojson quantize.go round: ceil(v - 0.5) for negative v, floor(v + 0.5)
otherwise. -/
def roundQ (v : ℚ) : ℚ := if v < 0 then ratCeil (v - 1/2) else ratFloor (v + 1/2)

/-- topojson quantize.go quantize: dx, dy, kx, ky. -/
structure Quantize where
  dx : ℚ
  dy : ℚ
  kx : ℚ
  ky : ℚ

/-- The Transform built by newQuantize:
{Scale: [1/kx, 1/ky], Translate: [-dx, -dy]}. -/
def Quantize.transform (q : Quantize) : Transform :=
  ⟨(1 / q.kx, 1 / q.ky), (-q.dx, -q.dy)⟩

/-- topojson quantize.go quantizePoint. -/
def quantizePoint (q : Quantize) (p : Point) : Point :=
  ⟨roundQ ((p.x + q.dx) * q.kx), roundQ ((p.y + q.dy) * q.ky)⟩

/-- Modelled from the spec: the helper `pointEquals` called by quantizeLine
is not under src/; it compares two points componentwise, and a nil previous
point compares unequal to any point. -/
def pointEquals (a : Point) (b : Option Point) : Bool :=
  match b with
  | none => false
  | some c => decide (a = c)

/-- The accumulator loop of topojson quantize.go quantizeLine: `last` is the
previously kept point, `out` the kept points so far. -/
def quantizeLineGo (q : Quantize) (skipEqual : Bool) :
    List Point → Option Point → List Point → List Point
  | [], _, out => out
  | p :: rest, last, out =>
    if !(pointEquals (quantizePoint q p) last) || !skipEqual then
      quantizeLineGo q skipEqual rest (some (quantizePoint q p))
        (out ++ [quantizePoint q p])
    else
      quantizeLineGo q skipEqual rest last out

/-- topojson quantize.go quantizeLine: quantize every point, skipping
consecutive duplicates when skipEqual; a result shorter than 2 points is
extended with its first point, and indexing out[0] on an empty result is the
panic (`none`). -/
def quantizeLine (q : Quantize) (line : List Point) (skipEqual : Bool) :
    Option (List Point) :=
  match quantizeLineGo q skipEqual line none [] with
  | [] => none
  | p :: rest =>
    if (p :: rest).length < 2 then some ((p :: rest) ++ [p]) else some (p :: rest)

/-- The `for len(line) < 4` padding loop of quantizeMultiLine: append the
first point until the ring has at least 4 points. -/
def padRing : List Point → List Point
  | [] => []
  | p :: rest => (p :: rest) ++ List.replicate (4 - (p :: rest).length) p

/-- topojson quantize.go quantizeMultiLine: quantize each line and pad it to
at least 4 points; no line is dropped. -/
def quantizeMultiLine (q : Quantize) (lines : List (List Point)) (skipEqual : Bool) :
    Option (List (List Point)) :=
  mapMOpt (fun line => (quantizeLine q line skipEqual).map padRing) lines

/-- Modelled from the spec: the delta-encoding of arcs ("ordered sequence of
delta-encoded coordinate sequences"; decoding is cumulative summation).  The
encoder (topojson delta step) is not under src/; this is the inverse of the
cumulative summation performed by packLinestring. -/
def deltaEncodeGo (px py : ℚ) : List Point → List Point
  | [] => []
  | p :: rest => ⟨p.x - px, p.y - py⟩ :: deltaEncodeGo p.x p.y rest

def deltaEncode (l : List Point) : List Point := deltaEncodeGo 0 0 l

theorem mapMOpt_length (f : α → Option β) :
    ∀ (l : List α) (out : List β), mapMOpt f l = some out → out.length = l.length := by
  intro l
  induction l with
  | nil =>
    intro out h
    simp [mapMOpt] at h
    simp [← h]
  | cons x t ih =>
    intro out h
    simp only [mapMOpt] at h
    cases hx : f x with
    | none => rw [hx] at h; simp at h
    | some y =>
      rw [hx] at h
      cases ht : mapMOpt f t with
      | none => rw [ht] at h; simp at h
      | some ys =>
        rw [ht] at h
        simp at h
        rw [← h]
        simp [ih ys ht]

/-- The last element of a list, with d standing for the elements before it. -/
def lastD (d : α) : List α → α
  | [] => d
  | x :: t => lastD x t

theorem getLast?_eq_lastD : ∀ (t : List α) (x : α), (x :: t).getLast? = some (lastD x t) := by
  intro t
  induction t with
  | nil => intro x; rfl
  | cons y t2 ih =>
    intro x
    rw [List.getLast?_cons_cons, ih]
    rfl

theorem lastD_map (f : α → β) : ∀ (l : List α) (a : α),
    lastD (f a) (l.map f) = f (lastD a l) := by
  intro l
  induction l with
  | nil => intro a; rfl
  | cons x t ih =>
    intro a
    rw [List.map_cons]
    show lastD (f x) (t.map f) = f (lastD x t)
    exact ih x

theorem quantizeLineGo_head (q : Quantize) (se : Bool) :
    ∀ (l : List Point) (last : Option Point) (out : List Point), out ≠ [] →
      (quantizeLineGo q se l last out).head? = out.head? := by
  intro l
  induction l with
  | nil => intro last out h; rfl
  | cons p rest ih =>
    intro last out h
    simp only [quantizeLineGo]
    by_cases hcond : (!(pointEquals (quantizePoint q p) last) || !se) = true
    · rw [if_pos hcond]
      rw [ih (some (quantizePoint q p)) (out ++ [quantizePoint q p]) (by simp)]
      cases out with
      | nil => exact absurd rfl h
      | cons o os => simp
    · rw [if_neg hcond]
      exact ih last out h

theorem quantizeLineGo_ne_nil (q : Quantize) (se : Bool) :
    ∀ (l : List Point) (last : Option Point) (out : List Point), out ≠ [] →
      quantizeLineGo q se l last out ≠ [] := by
  intro l
  induction l with
  | nil => intro last out h; exact h
  | cons p rest ih =>
    intro last out h
    simp only [quantizeLineGo]
    by_cases hcond : (!(pointEquals (quantizePoint q p) last) || !se) = true
    · rw [if_pos hcond]
      exact ih (some (quantizePoint q p)) (out ++ [quantizePoint q p]) (by simp)
    · rw [if_neg hcond]
      exact ih last out h

theorem quantizeLineGo_getLast (q : Quantize) (se : Bool) :
    ∀ (l : List Point) (lastp : Point) (out : List Point),
      out.getLast? = some lastp →
      (quantizeLineGo q se l (some lastp) out).getLast? =
        some (lastD lastp (l.map (quantizePoint q))) := by
  intro l
  induction l with
  | nil =>
    intro lastp out h
    simpa [quantizeLineGo, lastD] using h
  | cons p rest ih =>
    intro lastp out h
    simp only [quantizeLineGo]
    by_cases hcond : (!(pointEquals (quantizePoint q p) (some lastp)) || !se) = true
    · rw [if_pos hcond]
      rw [ih (quantizePoint q p) (out ++ [quantizePoint q p]) (by simp)]
      rfl
    · rw [if_neg hcond]
      have hpe : pointEquals (quantizePoint q p) (some lastp) = true := by
        cases hb : pointEquals (quantizePoint q p) (some lastp) with
        | true => rfl
        | false =>
          exfalso
          apply hcond
          simp [hb]
      have hpt : quantizePoint q p = lastp := by
        simpa [pointEquals] using hpe
      rw [ih lastp out h]
      show some (lastD lastp (rest.map (quantizePoint q)))
        = some (lastD (quantizePoint q p) (rest.map (quantizePoint q)))
      rw [hpt]

theorem quantizeLineGo_start (q : Quantize) (se : Bool) (p : Point) (rest : List Point) :
    quantizeLineGo q se (p :: rest) none [] =
      quantizeLineGo q se rest (some (quantizePoint q p)) [quantizePoint q p] := by
  simp [quantizeLineGo, pointEquals]

theorem quantizeLine_closed (q : Quantize) (p0 : Point) (rest : List Point)
    (hclosed : (p0 :: rest).head? = (p0 :: rest).getLast?) (se : Bool) :
    ∃ out, quantizeLine q (p0 :: rest) se = some out ∧ out ≠ [] ∧
      out.head? = some (quantizePoint q p0) ∧ out.head? = out.getLast? := by
  have hstart := quantizeLineGo_start q se p0 rest
  have hne : quantizeLineGo q se (p0 :: rest) none [] ≠ [] := by
    rw [hstart]
    exact quantizeLineGo_ne_nil q se rest _ _ (by simp)
  have hhead : (quantizeLineGo q se (p0 :: rest) none []).head? =
      some (quantizePoint q p0) := by
    rw [hstart, quantizeLineGo_head q se rest _ _ (by simp)]
    rfl
  have hlastD : p0 = lastD p0 rest := by
    have h2 := getLast?_eq_lastD rest p0
    rw [h2] at hclosed
    simpa using hclosed
  have hlast : (quantizeLineGo q se (p0 :: rest) none []).getLast? =
      some (quantizePoint q p0) := by
    rw [hstart, quantizeLineGo_getLast q se rest (quantizePoint q p0) _ (by rfl)]
    rw [lastD_map (quantizePoint q) rest p0, ← hlastD]
  unfold quantizeLine
  cases hr : quantizeLineGo q se (p0 :: rest) none [] with
  | nil => exact absurd hr hne
  | cons r0 rr =>
    rw [hr] at hhead hlast
    have hr0 : r0 = quantizePoint q p0 := by simpa using hhead
    by_cases hlen : (r0 :: rr).length < 2
    · have hrr : rr = [] := by
        cases rr with
        | nil => rfl
        | cons a b =>
          simp only [List.length_cons] at hlen
          omega
      subst hrr
      refine ⟨[r0] ++ [r0], ?_, by simp, by simp [hr0], by simp⟩
      show (if ([r0] : List Point).length < 2 then some ([r0] ++ [r0]) else some [r0])
          = some ([r0] ++ [r0])
      norm_num
    · refine ⟨r0 :: rr, ?_, by simp, hhead, by rw [hhead, hlast]⟩
      show (if (r0 :: rr).length < 2 then some ((r0 :: rr) ++ [r0]) else some (r0 :: rr))
          = some (r0 :: rr)
      rw [if_neg hlen]

theorem getLast?_replicate_succ (n : ℕ) (p : α) :
    (List.replicate (n + 1) p).getLast? = some p := by
  induction n with
  | zero => rfl
  | succ m ih =>
    rw [List.replicate_succ, List.replicate_succ, List.getLast?_cons_cons,
      ← List.replicate_succ, ih]

theorem padRing_spec (p : Point) (rest : List Point)
    (hclosed : (p :: rest).head? = (p :: rest).getLast?) :
    4 ≤ (padRing (p :: rest)).length ∧
    (padRing (p :: rest)).head? = some p ∧
    (padRing (p :: rest)).head? = (padRing (p :: rest)).getLast? := by
  unfold padRing
  refine ⟨?_, by simp, ?_⟩
  · simp only [List.length_append, List.length_replicate, List.length_cons]
    omega
  · show ((p :: rest) ++ List.replicate (4 - (p :: rest).length) p).head? =
        ((p :: rest) ++ List.replicate (4 - (p :: rest).length) p).getLast?
    by_cases h4 : 4 ≤ (p :: rest).length
    · have h0 : 4 - (p :: rest).length = 0 := by omega
      rw [h0]
      simp only [List.replicate_zero, List.append_nil]
      exact hclosed
    · obtain ⟨k, hk⟩ : ∃ k, 4 - (p :: rest).length = k + 1 := by
        refine ⟨4 - (p :: rest).length - 1, ?_⟩
        omega
      rw [hk]
      have hrep : List.replicate (k + 1) p ≠ [] := by simp
      have hap := List.getLast?_append_of_ne_nil (p :: rest) hrep
      rw [hap, getLast?_replicate_succ]
      simp

theorem cumSumGo_deltaEncodeGo : ∀ (l : List Point) (x y : ℚ),
    cumSumGo x y (deltaEncodeGo x y l) = l := by
  intro l
  induction l with
  | nil => intro x y; rfl
  | cons p rest ih =>
    intro x y
    obtain ⟨px, py⟩ := p
    simp only [deltaEncodeGo, cumSumGo]
    have hx : x + (px - x) = px := by ring
    have hy : y + (py - y) = py := by ring
    rw [hx, hy, ih px py]

theorem packLinestring_single (arc0 : List Point) (tr : Transform) :
    packLinestring ⟨[arc0], some tr, []⟩ [0] = some (decodeArcGo tr 0 0 arc0) := by
  simp [packLinestring, arcPoints, mapMOpt]

theorem getLast?_map_opt (f : α → β) : ∀ l : List α,
    (l.map f).getLast? = l.getLast?.map f := by
  intro l
  induction l with
  | nil => rfl
  | cons x t ih =>
    cases t with
    | nil => rfl
    | cons y t2 =>
      rw [List.map_cons, List.map_cons, List.getLast?_cons_cons, ← List.map_cons,
        ih, List.getLast?_cons_cons]

/-- C3: a non-empty closed ring survives quantization as a ring of at least
4 points with first point equal to last point; degenerate rings are padded by
duplicating the first point (and never dropped: quantizeMultiLine keeps one
output line per input line); and decoding the quantized, delta-encoded ring
through packLinestring under the quantization transform yields the affine
image of that ring, again with at least 4 points and first = last. -/
theorem ring_decode_invariant (q : Quantize) (ring : List Point)
    (lines : List (List Point))
    (hne : ring ≠ []) (hclosed : ring.head? = ring.getLast?) :
    (∀ out, quantizeMultiLine q lines true = some out → out.length = lines.length) ∧
    ∃ qr base, quantizeMultiLine q [ring] true = some [qr] ∧
      quantizeLine q ring true = some base ∧ qr = padRing base ∧
      4 ≤ qr.length ∧ qr.head? = qr.getLast? ∧
      packLinestring ⟨[deltaEncode qr], some q.transform, []⟩ [0]
        = some (qr.map (affinePoint q.transform)) ∧
      4 ≤ (qr.map (affinePoint q.transform)).length ∧
      (qr.map (affinePoint q.transform)).head? =
        (qr.map (affinePoint q.transform)).getLast? := by
  constructor
  · intro out h
    exact mapMOpt_length _ lines out h
  · obtain ⟨p0, rest, hr⟩ := List.exists_cons_of_ne_nil hne
    subst hr
    obtain ⟨base, hbase, hbne, hbhead, hbcl⟩ := quantizeLine_closed q p0 rest hclosed true
    obtain ⟨b0, brest, hb⟩ := List.exists_cons_of_ne_nil hbne
    subst hb
    obtain ⟨hlen4, hheadp, hclp⟩ := padRing_spec b0 brest hbcl
    refine ⟨padRing (b0 :: brest), b0 :: brest, ?_, hbase, rfl, hlen4, hclp, ?_, ?_, ?_⟩
    · simp [quantizeMultiLine, mapMOpt, hbase]
    · rw [packLinestring_single, decodeArcGo_eq_cumSum_affine]
      rw [show deltaEncode (padRing (b0 :: brest)) =
        deltaEncodeGo 0 0 (padRing (b0 :: brest)) from rfl]
      rw [cumSumGo_deltaEncodeGo]
    · rw [List.length_map]
      exact hlen4
    · rw [List.head?_map, getLast?_map_opt, ← hclp]

/-- Quantization parameters for the C3 witness (identity grid). -/
def demoQuantize : Quantize := ⟨0, 0, 1, 1⟩

/-- A closed triangular ring for the C3 witness. -/
def demoRing : List Point := [⟨0, 0⟩, ⟨1, 0⟩, ⟨0, 1⟩, ⟨0, 0⟩]

/-- Witness for C3 at the concrete ring. -/
theorem ring_decode_invariant_witness :
    ∃ qr, quantizeMultiLine demoQuantize [demoRing] true = some [qr] ∧
      4 ≤ qr.length ∧ qr.head? = qr.getLast? := by
  obtain ⟨-, qr, base, hq, -, -, hlen, hcl, -, -, -⟩ :=
    ring_decode_invariant demoQuantize demoRing [] (by decide) (by decide)
  exact ⟨qr, hq, hlen, hcl⟩

/-- geojson2svg Padding. -/
structure Padding where
  Top : ℚ
  Right : ℚ
  Bottom : ℚ
  Left : ℚ

/-- geojson2svg boundingRectangle: minX, minY, maxX, maxY. -/
structure BoundingRect where
  minX : ℚ
  minY : ℚ
  maxX : ℚ
  maxY : ℚ
deriving DecidableEq

/-- The fold of calcBoundingRectangle over the points after the first. -/
def calcBRGo (proj : ℚ → ℚ → ℚ × ℚ) (r : BoundingRect) : List Point → BoundingRect
  | [] => r
  | p :: rest =>
    calcBRGo proj
      ⟨min r.minX (proj p.x p.y).1, min r.minY (proj p.x p.y).2,
       max r.maxX (proj p.x p.y).1, max r.maxY (proj p.x p.y).2⟩ rest

/-- geojson2svg calcBoundingRectangle: the bounding rectangle of the points
after applying the projection, seeded with the first projected point. -/
def calcBoundingRectangle (proj : ℚ → ℚ → ℚ × ℚ) (points : List Point) : BoundingRect :=
  match points with
  | [] => ⟨0, 0, 0, 0⟩
  | p :: rest =>
    calcBRGo proj
      ⟨(proj p.x p.y).1, (proj p.x p.y).2, (proj p.x p.y).1, (proj p.x p.y).2⟩ rest

/-- geojson2svg makeScaleFunc. -/
def makeScaleFunc (width height : ℚ) (padding : Padding) (points : List Point)
    (projection : ℚ → ℚ → ℚ × ℚ) : ℚ → ℚ → ℚ × ℚ :=
  let w := width - padding.Left - padding.Right
  let h := height - padding.Top - padding.Bottom
  if points.length = 0 then fun x y => projection x y
  else if points.length = 1 then fun _ _ => (w / 2, h / 2)
  else
    let r := calcBoundingRectangle projection points
    let xRes := (r.maxX - r.minX) / w
    let yRes := (r.maxY - r.minY) / h
    let res := max xRes yRes
    fun x y =>
      (((projection x y).1 - r.minX) / res + padding.Left,
       (r.maxY - (projection x y).2) / res + padding.Top)

/-- geojson2svg GetHeightForWidth: width scaled by the aspect ratio of the
projected bounding rectangle, rounded to the nearest integer via
floor(x + 0.5). -/
def GetHeightForWidth (points : List Point) (width : ℚ)
    (projection : ℚ → ℚ → ℚ × ℚ) : ℚ :=
  let r := calcBoundingRectangle projection points
  let svgWidth := r.maxX - r.minX
  let svgHeight := r.maxY - r.minY
  let ratio := svgHeight / svgWidth
  ((Rat.floor (width * ratio + 1/2) : ℤ) : ℚ)

/-- The projected x coordinates of a point list. -/
def projXs (proj : ℚ → ℚ → ℚ × ℚ) (pts : List Point) : List ℚ :=
  pts.map (fun p => (proj p.x p.y).1)

/-- The projected y coordinates of a point list. -/
def projYs (proj : ℚ → ℚ → ℚ × ℚ) (pts : List Point) : List ℚ :=
  pts.map (fun p => (proj p.x p.y).2)

theorem calcBRGo_spec (proj : ℚ → ℚ → ℚ × ℚ) :
    ∀ (l : List Point) (r : BoundingRect), l ≠ [] →
      calcBRGo proj r l =
        ⟨min r.minX (listMin (projXs proj l)), min r.minY (listMin (projYs proj l)),
         max r.maxX (listMax (projXs proj l)), max r.maxY (listMax (projYs proj l))⟩ := by
  intro l
  induction l with
  | nil => intro r h; exact absurd rfl h
  | cons p rest ih =>
    intro r h
    cases rest with
    | nil =>
      simp [calcBRGo, projXs, projYs, listMin, listMax]
    | cons p2 rest2 =>
      rw [show calcBRGo proj r (p :: p2 :: rest2) =
        calcBRGo proj
          ⟨min r.minX (proj p.x p.y).1, min r.minY (proj p.x p.y).2,
           max r.maxX (proj p.x p.y).1, max r.maxY (proj p.x p.y).2⟩ (p2 :: rest2) from rfl]
      rw [ih _ (List.cons_ne_nil _ _)]
      have hx : projXs proj (p :: p2 :: rest2) =
          (proj p.x p.y).1 :: projXs proj (p2 :: rest2) := rfl
      have hy : projYs proj (p :: p2 :: rest2) =
          (proj p.x p.y).2 :: projYs proj (p2 :: rest2) := rfl
      rw [hx, hy]
      have hminx : listMin ((proj p.x p.y).1 :: projXs proj (p2 :: rest2)) =
          min (proj p.x p.y).1 (listMin (projXs proj (p2 :: rest2))) := rfl
      have hminy : listMin ((proj p.x p.y).2 :: projYs proj (p2 :: rest2)) =
          min (proj p.x p.y).2 (listMin (projYs proj (p2 :: rest2))) := rfl
      have hmaxx : listMax ((proj p.x p.y).1 :: projXs proj (p2 :: rest2)) =
          max (proj p.x p.y).1 (listMax (projXs proj (p2 :: rest2))) := rfl
      have hmaxy : listMax ((proj p.x p.y).2 :: projYs proj (p2 :: rest2)) =
          max (proj p.x p.y).2 (listMax (projYs proj (p2 :: rest2))) := rfl
      rw [hminx, hminy, hmaxx, hmaxy]
      simp [min_assoc, max_assoc]

theorem calcBoundingRectangle_spec (proj : ℚ → ℚ → ℚ × ℚ) (p : Point) (rest : List Point) :
    calcBoundingRectangle proj (p :: rest) =
      ⟨listMin (projXs proj (p :: rest)), listMin (projYs proj (p :: rest)),
       listMax (projXs proj (p :: rest)), listMax (projYs proj (p :: rest))⟩ := by
  cases rest with
  | nil => simp [calcBoundingRectangle, calcBRGo, projXs, projYs, listMin, listMax]
  | cons p2 rest2 =>
    rw [show calcBoundingRectangle proj (p :: p2 :: rest2) =
      calcBRGo proj
        ⟨(proj p.x p.y).1, (proj p.x p.y).2, (proj p.x p.y).1, (proj p.x p.y).2⟩
        (p2 :: rest2) from rfl]
    rw [calcBRGo_spec proj _ _ (List.cons_ne_nil _ _)]
    have hx : projXs proj (p :: p2 :: rest2) =
        (proj p.x p.y).1 :: projXs proj (p2 :: rest2) := rfl
    have hy : projYs proj (p :: p2 :: rest2) =
        (proj p.x p.y).2 :: projYs proj (p2 :: rest2) := rfl
    rw [hx, hy]
    rfl

/-- The uniform resolution picked by makeScaleFunc, stated over the projected
coordinate extremes: max of xRes and yRes. -/
def scaleRes (W H : ℚ) (P : Padding) (proj : ℚ → ℚ → ℚ × ℚ) (pts : List Point) : ℚ :=
  max ((listMax (projXs proj pts) - listMin (projXs proj pts)) / (W - P.Left - P.Right))
      ((listMax (projYs proj pts) - listMin (projYs proj pts)) / (H - P.Top - P.Bottom))

/-- C6: with zero points the scale function is the bare projection; with one
point it is the constant centre ((W - left - right)/2, (H - top - bottom)/2);
with two or more points it maps (x, y) to
((projX - minX)/res + left, (maxY - projY)/res + top) where min/max range
over the projected points and res = max(xRes, yRes). -/
theorem makeScaleFunc_spec (W H : ℚ) (P : Padding) (pts : List Point)
    (proj : ℚ → ℚ → ℚ × ℚ) (x y : ℚ) :
    (pts = [] → makeScaleFunc W H P pts proj x y = proj x y) ∧
    (pts.length = 1 → makeScaleFunc W H P pts proj x y =
      ((W - P.Left - P.Right) / 2, (H - P.Top - P.Bottom) / 2)) ∧
    (2 ≤ pts.length → makeScaleFunc W H P pts proj x y =
      (((proj x y).1 - listMin (projXs proj pts)) / scaleRes W H P proj pts + P.Left,
       (listMax (projYs proj pts) - (proj x y).2) / scaleRes W H P proj pts + P.Top)) := by
  refine ⟨?_, ?_, ?_⟩
  · intro h
    subst h
    rfl
  · intro h
    have h0 : ¬(pts.length = 0) := by omega
    unfold makeScaleFunc
    rw [if_neg h0, if_pos h]
  · intro h
    have h0 : ¬(pts.length = 0) := by omega
    have h1 : ¬(pts.length = 1) := by omega
    cases pts with
    | nil => simp at h
    | cons p rest =>
      unfold makeScaleFunc
      rw [if_neg h0, if_neg h1, calcBoundingRectangle_spec]
      rfl

/-- Witness inputs for C6. -/
def demoPadding : Padding := ⟨0, 0, 0, 0⟩

def demoPts2 : List Point := [⟨0, 0⟩, ⟨10, 10⟩]

/-- Witness for C6 at concrete inputs: each of the three cases evaluated. -/
theorem makeScaleFunc_spec_witness :
    makeScaleFunc 100 100 demoPadding [] (fun a b => (a, b)) 3 4 = (3, 4) ∧
    makeScaleFunc 100 100 demoPadding [⟨1, 1⟩] (fun a b => (a, b)) 3 4 = (50, 50) ∧
    makeScaleFunc 100 100 demoPadding demoPts2 (fun a b => (a, b)) 5 5 = (50, 50) := by
  obtain ⟨hz, -, -⟩ := makeScaleFunc_spec 100 100 demoPadding [] (fun a b => (a, b)) 3 4
  obtain ⟨-, ho, -⟩ := makeScaleFunc_spec 100 100 demoPadding [⟨1, 1⟩] (fun a b => (a, b)) 3 4
  obtain ⟨-, -, ht⟩ := makeScaleFunc_spec 100 100 demoPadding demoPts2 (fun a b => (a, b)) 5 5
  refine ⟨hz rfl, ?_, ?_⟩
  · rw [ho rfl]
    norm_num [demoPadding]
  · rw [ht (by decide)]
    norm_num [demoPadding, demoPts2, scaleRes, projXs, projYs, listMin, listMax]

/-- C7: for a non-empty point set, GetHeightForWidth returns
floor(width * (maxY - minY)/(maxX - minX) + 1/2) computed over the projected
(not raw) bounding rectangle. -/
theorem GetHeightForWidth_spec (pts : List Point) (hne : pts ≠ []) (w : ℚ)
    (proj : ℚ → ℚ → ℚ × ℚ) :
    GetHeightForWidth pts w proj =
      ((Rat.floor (w * ((listMax (projYs proj pts) - listMin (projYs proj pts)) /
          (listMax (projXs proj pts) - listMin (projXs proj pts))) + 1/2) : ℤ) : ℚ) := by
  cases pts with
  | nil => exact absurd rfl hne
  | cons p rest =>
    unfold GetHeightForWidth
    rw [calcBoundingRectangle_spec]

/-- Witness for C7: points (0,0) and (4,2) under the identity projection at
width 10 give floor(10 * 2/4 + 1/2) = floor(11/2) = 5. -/
theorem GetHeightForWidth_spec_witness :
    GetHeightForWidth [⟨0, 0⟩, ⟨4, 2⟩] 10 (fun a b => (a, b)) = 5 := by
  rw [GetHeightForWidth_spec [⟨0, 0⟩, ⟨4, 2⟩] (by decide) 10 (fun a b => (a, b))]
  have h1 : (10 : ℚ) * ((listMax (projYs (fun a b => (a, b)) [⟨0, 0⟩, ⟨4, 2⟩]) -
      listMin (projYs (fun a b => (a, b)) [⟨0, 0⟩, ⟨4, 2⟩])) /
      (listMax (projXs (fun a b => (a, b)) [⟨0, 0⟩, ⟨4, 2⟩]) -
      listMin (projXs (fun a b => (a, b)) [⟨0, 0⟩, ⟨4, 2⟩]))) + 1/2 = 11/2 := by
    norm_num [projXs, projYs, listMin, listMax]
  rw [h1]
  have hconv : Rat.floor ((11 : ℚ) / 2) = ⌊((11 : ℚ) / 2)⌋ := rfl
  have h112 : ((11 : ℚ) / 2) = 11 / 2 := rfl
  rw [h112, hconv]
  have hfl : ⌊((11 : ℚ) / 2)⌋ = 5 := by
    rw [Int.floor_eq_iff]
    constructor
    · norm_num
    · norm_num
  rw [hfl]
  norm_num

/-- models.Geography. -/
structure Geography where
  Topojson : Option Topology
  IDProperty : String
  NameProperty : String

/-- models.RenderRequest (the fields the SVG renderer reads). -/
structure RenderRequest where
  Filename : String
  Geography : Option Geography
  Data : Option (List DataRow)
  Choropleth : Option Choropleth
  IncludeFallbackPng : Bool
  FontSize : Int

/-- renderer.valueAndColour. -/
structure ValueAndColour where
  value : ℚ
  colour : String

/-- renderer.MissingDataText. -/
def MissingDataText : String := "data unavailable"

/-- renderer.mapDataToColour (svg.go): sorts the breaks descending and maps
every data row to its value and colour; `none` when getColour panics. -/
def mapDataToColour (data : List DataRow) (choropleth : Choropleth)
    (idPrefix : String) : Option (List (String × ValueAndColour)) :=
  let breaks := sortBreaks choropleth.Breaks false
  mapMOpt (fun row => (getColour row.Value breaks).map
    (fun c => (idPrefix ++ row.ID, ValueAndColour.mk row.Value c))) data

/-- Property lookup on the feature's open key-value mapping. -/
def getProp (props : Props) (k : String) : Option String :=
  (props.find? (fun kv => kv.1 = k)).map (fun kv => kv.2)

/-- Property update (map semantics over the association list). -/
def setProp (props : Props) (k : String) (v : String) : Props :=
  (props.filter (fun kv => ¬(kv.1 = k))) ++ [(k, v)]

/-- renderer.appendProperty: sets the property, prepending the new value to
any existing one. -/
def appendProperty (f : Feature) (propertyName value : String) : Feature :=
  let s := match getProp f.Properties propertyName with
    | some original => value ++ " " ++ original
    | none => value
  { f with Properties := setProp f.Properties propertyName s }

def lookupVC (m : List (String × ValueAndColour)) (k : String) : Option ValueAndColour :=
  (m.find? (fun kv => kv.1 = k)).map (fun kv => kv.2)

/-- The per-feature body of setChoroplethColoursAndTitles: assign title and
style from the data map, or the missing-data pattern and text.  Formatting of
float values (fmt %g) is abstracted as fmtg. -/
def updateFeature (fmtg : ℚ → String) (choropleth : Choropleth)
    (nameProperty filename : String) (dataMap : List (String × ValueAndColour))
    (feature : Feature) : Feature :=
  let missingValueStyle := "fill: url(#" ++ filename ++ "-nodata);"
  let title0 := match getProp feature.Properties nameProperty with
    | some t => t
    | none => ""
  match lookupVC dataMap feature.ID with
  | some vc =>
    let title := title0 ++ " " ++ choropleth.ValuePrefix ++ fmtg vc.value ++
      choropleth.ValueSuffix
    let f2 := { feature with Properties := setProp feature.Properties nameProperty title }
    appendProperty f2 "style" ("fill: " ++ vc.colour ++ ";")
  | none =>
    let title := title0 ++ " " ++ MissingDataText
    let f2 := { feature with Properties := setProp feature.Properties nameProperty title }
    appendProperty f2 "style" missingValueStyle

/-- renderer.setChoroplethColoursAndTitles (svg.go): no-op when Choropleth or
Data is nil; otherwise builds the data map (panicking inside getColour when
Breaks is empty and a row exists) and restyles every feature, dereferencing
request.Geography for the name property. -/
def setChoroplethColoursAndTitles (fmtg : ℚ → String) (features : List Feature)
    (request : RenderRequest) (idPrefix : String) : Option (List Feature) :=
  match request.Choropleth, request.Data with
  | none, _ => some features
  | _, none => some features
  | some choropleth, some data =>
    match mapDataToColour data choropleth idPrefix with
    | none => none
    | some dataMap =>
      mapMOpt (fun feature =>
        match request.Geography with
        | none => none
        | some geo =>
          some (updateFeature fmtg choropleth geo.NameProperty request.Filename
            dataMap feature)) features

/-- C10: getColour on an empty break slice panics (breaks[len(breaks)-1] is
out of range), mapDataToColour therefore panics for any non-empty data with
empty breaks, and setChoroplethColoursAndTitles reaches that call whenever
Choropleth and Data are both non-nil, with no check on Breaks. -/
theorem choropleth_empty_breaks_panics (fmtg : ℚ → String) (features : List Feature)
    (request : RenderRequest) (idPrefix : String) (ch : Choropleth)
    (data : List DataRow) (hch : request.Choropleth = some ch)
    (hdata : request.Data = some data) (hbreaks : ch.Breaks = [])
    (hne : data ≠ []) :
    (∀ v : ℚ, getColour v [] = none) ∧
    mapDataToColour data ch idPrefix = none ∧
    setChoroplethColoursAndTitles fmtg features request idPrefix = none := by
  have hg : ∀ v : ℚ, getColour v [] = none := fun v => rfl
  have hsort : sortBreaks ch.Breaks false = [] := by
    rw [hbreaks]
    rfl
  have hmap : mapDataToColour data ch idPrefix = none := by
    unfold mapDataToColour
    rw [hsort]
    cases data with
    | nil => exact absurd rfl hne
    | cons d rest => simp [mapMOpt, getColour]
  refine ⟨hg, hmap, ?_⟩
  unfold setChoroplethColoursAndTitles
  simp only [hch, hdata, hmap]

/-- A choropleth with no breaks, for the C10 witness. -/
def emptyBreaksChoropleth : Choropleth := ⟨0, "", "", "", [], 0, "", ""⟩

/-- A render request with non-nil Choropleth, empty Breaks and one data row. -/
def demoRequestEmptyBreaks : RenderRequest :=
  ⟨"map", some ⟨none, "id", "name"⟩, some [⟨"a", 1⟩], some emptyBreaksChoropleth, false, 0⟩

/-- Witness for C10 at the concrete request. -/
theorem choropleth_empty_breaks_panics_witness :
    mapDataToColour [⟨"a", 1⟩] emptyBreaksChoropleth "map-" = none ∧
    setChoroplethColoursAndTitles (fun _ => "") [] demoRequestEmptyBreaks "map-" = none := by
  obtain ⟨-, hmap, hset⟩ := choropleth_empty_breaks_panics (fun _ => "") []
    demoRequestEmptyBreaks "map-" emptyBreaksChoropleth [⟨"a", 1⟩] rfl rfl rfl (by decide)
  exact ⟨hmap, hset⟩

/-- renderer.getGeoJSON (svg.go): nil (inner `none`) when Geography or
Topojson is missing or the topology has no arcs or no objects; otherwise the
decoded feature collection.  The outer Option models a decode panic. -/
def getGeoJSON (request : RenderRequest) : Option (Option FeatureCollection) :=
  match request.Geography with
  | none => some none
  | some geo =>
    match geo.Topojson with
    | none => some none
    | some topo =>
      if topo.Arcs.length = 0 ∨ topo.Objects.length = 0 then some none
      else (ToGeoJSON topo).map some

mutual

/-- geojson2svg collect: every coordinate in a geometry. -/
def collect : GeoGeometry → List Point
  | .point p => [p]
  | .multiPoint ps => ps
  | .lineString ps => ps
  | .multiLineString ls => ls.flatten
  | .polygon rings => rings.flatten
  | .multiPolygon polys => polys.flatten.flatten
  | .collection gs => collectList gs

def collectList : List GeoGeometry → List Point
  | [] => []
  | g :: rest => collect g ++ collectList rest

end

/-- geojson2svg getPoints over an appended feature collection. -/
def getPoints (fc : FeatureCollection) : List Point :=
  (fc.map (fun f => collect f.geometry)).flatten

/-- renderer.getViewBoxDimensions: fixed width 400, height from
GetHeightForWidth. -/
def getViewBoxDimensions (proj : ℚ → ℚ → ℚ × ℚ) (fc : FeatureCollection) : ℚ × ℚ :=
  (400, GetHeightForWidth (getPoints fc) 400 proj)

/-- renderer.getVerticalTickTextWidth, with text measurement (htmlutil) and
float formatting (fmt %g) abstracted as tw and fmtg. -/
def getVerticalTickTextWidth (tw : String → Int → ℚ) (fmtg : ℚ → String)
    (request : RenderRequest) (ch : Choropleth) (breaks : List BreakInfo) : ℚ × ℚ :=
  let maxTick := breaks.foldl (fun m b =>
    let lbound := tw (fmtg b.LowerBound) request.FontSize
    let m2 := if m < lbound then lbound else m
    let ubound := tw (fmtg b.UpperBound) request.FontSize
    if m2 < ubound then ubound else m2) 0
  let refTick := tw ch.ReferenceValueText request.FontSize
  let refValue := tw (fmtg ch.ReferenceValue) request.FontSize
  let refWidth := max refTick refValue
  (maxTick + refWidth + 38, maxTick - refWidth)

/-- renderer.getVerticalLegendWidth. -/
def getVerticalLegendWidth (tw : String → Int → ℚ) (fmtg : ℚ → String)
    (request : RenderRequest) (ch : Choropleth) (breaks : List BreakInfo) : ℚ × ℚ :=
  let missingWidth := tw MissingDataText request.FontSize + 12
  let titleWidth := tw (ch.ValuePrefix ++ " " ++ ch.ValueSuffix) request.FontSize
  let maxWidth := max missingWidth titleWidth
  let kw := getVerticalTickTextWidth tw fmtg request ch breaks
  (max maxWidth kw.1 + 10, kw.2)

/-- renderer.SVGRequest: the per-request cache built by PrepareSVGRequest. -/
structure SVGRequest where
  request : RenderRequest
  geoJSON : Option FeatureCollection
  ViewBoxWidth : ℚ
  ViewBoxHeight : ℚ
  breaks : List BreakInfo
  referencePos : ℚ
  VerticalLegendWidth : ℚ
  verticalKeyOffset : ℚ

/-- renderer.PrepareSVGRequest: decodes the geojson, computes the view box
when the geojson is present, and - whenever Choropleth is non-nil with at
least one break - computes the sorted break info (which panics on empty data
or a single break) and the legend width.  tw, fmtg and proj abstract the
text-width table, float formatting and the Mercator projection. -/
def PrepareSVGRequest (tw : String → Int → ℚ) (fmtg : ℚ → String)
    (proj : ℚ → ℚ → ℚ × ℚ) (request : RenderRequest) : Option SVGRequest :=
  match getGeoJSON request with
  | none => none
  | some geoJSON =>
    let wh : ℚ × ℚ :=
      match geoJSON with
      | some fc => getViewBoxDimensions proj fc
      | none => (0, 0)
    match request.Choropleth with
    | some ch =>
      if 0 < ch.Breaks.length then
        match getSortedBreakInfo (request.Data.getD []) ch with
        | none => none
        | some bi =>
          let vl := getVerticalLegendWidth tw fmtg request ch bi.1
          some ⟨request, geoJSON, wh.1, wh.2, bi.1, bi.2, vl.1, vl.2⟩
      else some ⟨request, geoJSON, wh.1, wh.2, [], 0, 0, 0⟩
    | none => some ⟨request, geoJSON, wh.1, wh.2, [], 0, 0, 0⟩

/-- renderer.RenderSVG: empty string when the decoded geojson is nil; the
drawing body (feature styling plus DrawWithProjection) is abstracted, and may
itself panic. -/
def RenderSVG (drawBody : SVGRequest → FeatureCollection → Option String)
    (svgRequest : SVGRequest) : Option String :=
  match svgRequest.geoJSON with
  | none => some ""
  | some geoJSON => drawBody svgRequest geoJSON

/-- renderer.RenderVerticalKey: empty string when the decoded geojson is nil. -/
def RenderVerticalKey (body : SVGRequest → FeatureCollection → Option String)
    (svgRequest : SVGRequest) : Option String :=
  match svgRequest.geoJSON with
  | none => some ""
  | some geoJSON => body svgRequest geoJSON

/-- renderer.RenderHorizontalKey: empty string when the decoded geojson is nil. -/
def RenderHorizontalKey (body : SVGRequest → FeatureCollection → Option String)
    (svgRequest : SVGRequest) : Option String :=
  match svgRequest.geoJSON with
  | none => some ""
  | some geoJSON => body svgRequest geoJSON

theorem getSortedBreakInfo_isSome (data : List DataRow) (ch : Choropleth)
    (hd : data ≠ []) (hb : 2 ≤ ch.Breaks.length) :
    ∃ r, getSortedBreakInfo data ch = some r := by
  have hlen_d : (List.insertionSort dataLe data).length = data.length :=
    (List.perm_insertionSort dataLe data).length_eq
  have hlen_b : (List.insertionSort breakLe ch.Breaks).length = ch.Breaks.length :=
    (List.perm_insertionSort breakLe ch.Breaks).length_eq
  have hsb0 : sortBreaks ch.Breaks true = List.insertionSort breakLe ch.Breaks := by
    simp [sortBreaks]
  cases hsd : List.insertionSort dataLe data with
  | nil =>
    rw [hsd] at hlen_d
    exact absurd (List.length_eq_zero.mp hlen_d.symm) hd
  | cons d0 ds =>
  cases hsb : List.insertionSort breakLe ch.Breaks with
  | nil =>
    rw [hsb] at hlen_b
    simp at hlen_b
    omega
  | cons b0 tb =>
  cases tb with
  | nil =>
    rw [hsb] at hlen_b
    simp at hlen_b
    omega
  | cons b1 bs =>
  have hs : (getSortedBreakInfo data ch).isSome = true := by
    simp only [getSortedBreakInfo, hsb0, hsd, hsb]
    rfl
  exact Option.isSome_iff_exists.mp hs

/-- C9 (amended): for a render request whose Geography is nil, whose Topojson
is nil, or whose topology has empty Arcs or Objects, getGeoJSON returns nil;
and provided the request survives preparation (its Choropleth is nil or has
no breaks, or has at least two breaks together with non-empty data),
PrepareSVGRequest succeeds and RenderSVG, RenderVerticalKey and
RenderHorizontalKey each return the empty string, for every drawing body. -/
theorem render_nil_geography_empty_output (tw : String → Int → ℚ) (fmtg : ℚ → String)
    (proj : ℚ → ℚ → ℚ × ℚ) (request : RenderRequest)
    (hgeo : request.Geography = none ∨
      (∃ geo, request.Geography = some geo ∧ geo.Topojson = none) ∨
      (∃ geo topo, request.Geography = some geo ∧ geo.Topojson = some topo ∧
        (topo.Arcs = [] ∨ topo.Objects = [])))
    (hprep : request.Choropleth = none ∨
      ∃ ch, request.Choropleth = some ch ∧
        (ch.Breaks = [] ∨ (2 ≤ ch.Breaks.length ∧ request.Data.getD [] ≠ []))) :
    getGeoJSON request = some none ∧
    ∃ sr, PrepareSVGRequest tw fmtg proj request = some sr ∧ sr.geoJSON = none ∧
      (∀ body, RenderSVG body sr = some "") ∧
      (∀ body, RenderVerticalKey body sr = some "") ∧
      (∀ body, RenderHorizontalKey body sr = some "") := by
  have hgj : getGeoJSON request = some none := by
    rcases hgeo with h | ⟨geo, h1, h2⟩ | ⟨geo, topo, h1, h2, h3⟩
    · simp [getGeoJSON, h]
    · simp [getGeoJSON, h1, h2]
    · rcases h3 with h3 | h3
      · simp [getGeoJSON, h1, h2, h3]
      · simp [getGeoJSON, h1, h2, h3]
  refine ⟨hgj, ?_⟩
  rcases hprep with hch | ⟨ch, hch, hcase⟩
  · refine ⟨⟨request, none, 0, 0, [], 0, 0, 0⟩, ?_, rfl,
      fun body => rfl, fun body => rfl, fun body => rfl⟩
    simp [PrepareSVGRequest, hgj, hch]
  · rcases hcase with hbe | ⟨hb2, hdne⟩
    · refine ⟨⟨request, none, 0, 0, [], 0, 0, 0⟩, ?_, rfl,
        fun body => rfl, fun body => rfl, fun body => rfl⟩
      simp [PrepareSVGRequest, hgj, hch, hbe]
    · obtain ⟨r, hr⟩ := getSortedBreakInfo_isSome (request.Data.getD []) ch hdne hb2
      have hlen : 0 < ch.Breaks.length := by omega
      refine ⟨⟨request, none, 0, 0, r.1, r.2,
        (getVerticalLegendWidth tw fmtg request ch r.1).1,
        (getVerticalLegendWidth tw fmtg request ch r.1).2⟩, ?_, rfl,
        fun body => rfl, fun body => rfl, fun body => rfl⟩
      simp [PrepareSVGRequest, hgj, hch, hlen, hr]

/-- A request with nil Geography but a single-break Choropleth and empty
data: preparation hits getSortedBreakInfo, whose data[0] indexing panics. -/
def singleBreakEmptyDataRequest : RenderRequest :=
  ⟨"m", none, some [], some ⟨0, "", "", "", [⟨0, "red"⟩], 0, "", ""⟩, false, 0⟩

/-- Counterexample to C9 as stated: getGeoJSON does return nil, but
preparing this request panics (PrepareSVGRequest = none), so the renderers
never produce empty output for it. -/
theorem render_nil_geography_counterexample :
    getGeoJSON singleBreakEmptyDataRequest = some none ∧
    PrepareSVGRequest (fun _ _ => 0) (fun _ => "") (fun a b => (a, b))
      singleBreakEmptyDataRequest = none :=
  ⟨rfl, rfl⟩

/-- A request with nothing set: Geography nil and Choropleth nil. -/
def emptyRequest : RenderRequest := ⟨"m", none, none, none, false, 0⟩

/-- Witness for C9 (amended) at the concrete empty request. -/
theorem render_nil_geography_empty_output_witness :
    ∃ sr, PrepareSVGRequest (fun _ _ => 0) (fun _ => "") (fun a b => (a, b)) emptyRequest
        = some sr ∧
      RenderSVG (fun _ _ => none) sr = some "" ∧
      RenderVerticalKey (fun _ _ => none) sr = some "" ∧
      RenderHorizontalKey (fun _ _ => none) sr = some "" := by
  obtain ⟨-, sr, hsr, -, hs, hv, hh⟩ := render_nil_geography_empty_output
    (fun _ _ => 0) (fun _ => "") (fun a b => (a, b)) emptyRequest (Or.inl rfl) (Or.inl rfl)
  exact ⟨sr, hsr, hs _, hv _, hh _⟩

end MapRenderer
